import Mathlib

/-!
Shallow embedding of the `local_stack_focus` reconciliation agent
(`src/business/mod.rs` and `src/main.rs`).

Rust `HashMap`s are embedded as association lists `List (String × α)`;
the list order stands for the (arbitrary) iteration order of the map.
Rust `String`s handled by the hosts-file rewriter are embedded as
`List Char`; fallible operations return `Option`/`Except`.
-/

set_option autoImplicit false

/-- Configuration (src/business/mod.rs, `struct Config`). -/
structure Config where
  network : String
  label_key : String
  target : String
  dependencies : List String
  deriving DecidableEq, Repr

/-- Raw per-poll snapshot entry (src/business/mod.rs, `struct RawContainer`). -/
structure RawContainer where
  id : String
  name : Option String
  networks : List (String × String)
  labels : List (String × String)
  deriving DecidableEq, Repr

/-- Tracked container (src/business/mod.rs, `struct Container`). -/
structure Container where
  id : String
  name : Option String
  service : Option String
  ip : Option String
  flag : Option String
  deriving DecidableEq, Repr

/-- Event stream type (src/business/mod.rs, `enum StackEvents`). -/
inductive StackEvents where
  | New : Container → StackEvents
  | Target : Container → List Container → String → StackEvents
  | Gone : Container → StackEvents
  | NoFlag : Container → StackEvents
  | OutsideNetwork : Container → StackEvents
  deriving DecidableEq, Repr

/-- Embedding of `HashMap::get`: first entry with the given key. -/
def lookupKey {α : Type} (k : String) : List (String × α) → Option α
  | [] => none
  | kv :: rest => if kv.1 == k then some kv.2 else lookupKey k rest

/-- Embedding of `HashMap::contains_key`. -/
def containsKey {α : Type} (k : String) (m : List (String × α)) : Bool :=
  (lookupKey k m).isSome

/-- Embedding of `HashMap::remove` (for maps with unique keys). -/
def removeKey {α : Type} (k : String) (m : List (String × α)) : List (String × α) :=
  m.filter (fun kv => kv.1 != k)

/-- Embedding of `HashMap::insert` (for maps with unique keys). -/
def insertKey {α : Type} (k : String) (v : α) (m : List (String × α)) : List (String × α) :=
  if containsKey k m then m.map (fun kv => if kv.1 == k then (k, v) else kv) else m ++ [(k, v)]

/-- The association list represents a map: its keys are pairwise distinct. -/
def NodupKeys {α : Type} (m : List (String × α)) : Prop :=
  (m.map Prod.fst).Nodup

instance {α : Type} (m : List (String × α)) : Decidable (NodupKeys m) := by
  unfold NodupKeys
  infer_instance

/--
First loop of `CurrentStack::actualize` (src/business/mod.rs lines 189-196):
walk the previously known containers; a container whose id is still present
in the raw snapshot is kept (and consumed from the snapshot working set),
otherwise a `Gone` event is emitted.  Returns
(events, kept containers, remaining raw containers).
-/
def phase1 : List (String × Container) → List (String × RawContainer) →
    List StackEvents × List (String × Container) × List (String × RawContainer)
  | [], raw_containers => ([], [], raw_containers)
  | (id, container) :: rest, raw_containers =>
    if containsKey id raw_containers then
      let r := phase1 rest (removeKey id raw_containers)
      (r.1, (id, container) :: r.2.1, r.2.2)
    else
      let r := phase1 rest raw_containers
      (StackEvents.Gone container :: r.1, r.2.1, r.2.2)

/-- Derivation of a `Container` from a raw snapshot entry
(src/business/mod.rs lines 199-210). -/
def deriveContainer (cfg : Config) (id : String) (new : RawContainer) : Container :=
  ⟨id, new.name,
    lookupKey "com.docker.compose.service" new.labels,
    lookupKey cfg.network new.networks,
    lookupKey cfg.label_key new.labels⟩

/-- Embedding of `new_containers.values().filter(|item| item.flag.is_some() && item.ip.is_some())`
(src/business/mod.rs lines 215-217). -/
def participants (new_containers : List (String × Container)) : List Container :=
  (new_containers.map Prod.snd).filter (fun item => item.flag.isSome && item.ip.isSome)

/-- Classification of one first-sighted container
(src/business/mod.rs lines 199-224): the event pushed for it. -/
def classifyEvent (cfg : Config) (new_containers : List (String × Container))
    (id : String) (new : RawContainer) : StackEvents :=
  let ip := lookupKey cfg.network new.networks
  let service := lookupKey "com.docker.compose.service" new.labels
  let flag := lookupKey cfg.label_key new.labels
  let c := deriveContainer cfg id new
  if ip.isSome && (some cfg.target == service) then
    StackEvents.Target c (participants new_containers) (ip.getD "")
  else if ip.isSome && flag.isSome then
    StackEvents.New c
  else if ip.isSome then
    StackEvents.NoFlag c
  else
    StackEvents.OutsideNetwork c

/--
Second loop of `CurrentStack::actualize` (src/business/mod.rs lines 198-227):
classify each remaining (first-sighted) raw container against the accumulating
`new_containers` map and insert its derived container.
-/
def phase2 (cfg : Config) : List (String × RawContainer) → List (String × Container) →
    List StackEvents × List (String × Container)
  | [], new_containers => ([], new_containers)
  | (id, new) :: rest, new_containers =>
    let ev := classifyEvent cfg new_containers id new
    let r := phase2 cfg rest (insertKey id (deriveContainer cfg id new) new_containers)
    (ev :: r.1, r.2)

/-- `CurrentStack::actualize` (src/business/mod.rs lines 182-232):
returns (events, new tracked map). -/
def actualize (cfg : Config) (known_containers : List (String × Container))
    (raw_containers : List (String × RawContainer)) :
    List StackEvents × List (String × Container) :=
  let p := phase1 known_containers raw_containers
  let q := phase2 cfg p.2.2 p.2.1
  (p.1 ++ q.1, q.2)

/-- Folding successive insertions of derived containers, as `phase2` performs them. -/
def insertList (cfg : Config) (m : List (String × Container))
    (l : List (String × RawContainer)) : List (String × Container) :=
  l.foldl (fun acc kv => insertKey kv.1 (deriveContainer cfg kv.1 kv.2) acc) m

/-- Kind of an event (its `StackEvents` constructor). -/
inductive EvKind where
  | target
  | fresh
  | gone
  | noflag
  | outside
  deriving DecidableEq, Repr

/-- The constructor of an event. -/
def evKind : StackEvents → EvKind
  | StackEvents.Target _ _ _ => EvKind.target
  | StackEvents.New _ => EvKind.fresh
  | StackEvents.Gone _ => EvKind.gone
  | StackEvents.NoFlag _ => EvKind.noflag
  | StackEvents.OutsideNetwork _ => EvKind.outside

/-- The container an event is about (the first field of every constructor). -/
def evPrimary : StackEvents → Container
  | StackEvents.Target c _ _ => c
  | StackEvents.New c => c
  | StackEvents.Gone c => c
  | StackEvents.NoFlag c => c
  | StackEvents.OutsideNetwork c => c

/-- The events of a tick that are about a given identity. -/
def eventsAbout (id : String) (events : List StackEvents) : List StackEvents :=
  events.filter (fun e => (evPrimary e).id == id)

/-- Erase the `activeParticipants` payload of a `Target` event; other events unchanged. -/
def stripEv : StackEvents → StackEvents
  | StackEvents.Target c _ ip => StackEvents.Target c [] ip
  | e => e

/-- The docker collaborator interface (src/business/mod.rs `trait Docker`),
embedded as a state machine over an abstract world state `σ` with errors `ε`. -/
structure DockerOps (σ ε : Type) where
  poll : σ → Except ε (σ × List (String × RawContainer))
  update_hosts_for : σ → Container → List String → String → String → String → Except ε σ

/-- `struct CurrentStack` (src/business/mod.rs lines 124-128).  The `Option`
wrapper around `map` in the source is an ownership artifact (`take`/restore)
and is dropped here. -/
structure CurrentStack where
  config : Config
  target_ip : Option String
  map : List (String × Container)
  deriving DecidableEq, Repr

/-- The fan-out inside the `Target` arm of `loop_once`
(src/business/mod.rs lines 139-142).  As in the source, the monitored
network name is passed for both the `network` and `target` arguments. -/
def dispatchTarget {σ ε : Type} (d : DockerOps σ ε) (cfg : Config) (ip : String) :
    σ → List Container → Except ε σ
  | s, [] => Except.ok s
  | s, item :: rest =>
    match d.update_hosts_for s item cfg.dependencies cfg.network cfg.network ip with
    | Except.error e => Except.error e
    | Except.ok s' => dispatchTarget d cfg ip s' rest

/-- One arm of the event dispatch loop of `CurrentStack::loop_once`
(src/business/mod.rs lines 135-165).  The log lines written to `W` are
modeled separately (`eventLogLine`); this captures the docker effects and
the `target_ip` updates. -/
def handleEvent {σ ε : Type} (d : DockerOps σ ε) (cfg : Config) (s : σ)
    (target_ip : Option String) : StackEvents → Except ε (σ × Option String)
  | StackEvents.Target _ known ip =>
    match dispatchTarget d cfg ip s known with
    | Except.error e => Except.error e
    | Except.ok s' => Except.ok (s', some ip)
  | StackEvents.New container =>
    match target_ip with
    | some ip =>
      match d.update_hosts_for s container cfg.dependencies cfg.network cfg.target ip with
      | Except.error e => Except.error e
      | Except.ok s' => Except.ok (s', target_ip)
    | none => Except.ok (s, target_ip)
  | StackEvents.Gone _ => Except.ok (s, target_ip)
  | StackEvents.NoFlag _ => Except.ok (s, target_ip)
  | StackEvents.OutsideNetwork _ => Except.ok (s, target_ip)

/-- The `for event in events` loop of `CurrentStack::loop_once`. -/
def dispatchEvents {σ ε : Type} (d : DockerOps σ ε) (cfg : Config) :
    σ → Option String → List StackEvents → Except ε (σ × Option String)
  | s, tip, [] => Except.ok (s, tip)
  | s, tip, ev :: rest =>
    match handleEvent d cfg s tip ev with
    | Except.error e => Except.error e
    | Except.ok st => dispatchEvents d cfg st.1 st.2 rest

/-- `CurrentStack::loop_once` (src/business/mod.rs lines 131-168). -/
def loop_once {σ ε : Type} (d : DockerOps σ ε) (s : σ) (stack : CurrentStack) :
    Except ε (σ × CurrentStack) :=
  match d.poll s with
  | Except.error e => Except.error e
  | Except.ok pr =>
    let er := actualize stack.config stack.map pr.2
    match dispatchEvents d stack.config pr.1 stack.target_ip er.1 with
    | Except.error e => Except.error e
    | Except.ok st => Except.ok (st.1, ⟨stack.config, st.2, er.2⟩)

/-- `event_loop` (src/business/mod.rs lines 235-260) with fuel: run `n` ticks.
The tick-rate sleep does not affect the data flow and is not modeled. -/
def event_loop_n {σ ε : Type} (d : DockerOps σ ε) :
    Nat → σ → CurrentStack → Except ε (σ × CurrentStack)
  | 0, s, stack => Except.ok (s, stack)
  | n + 1, s, stack =>
    match loop_once d s stack with
    | Except.error e => Except.error e
    | Except.ok r => event_loop_n d n r.1 r.2

/-- Worker for the embedding of Rust `str::split`: split on leftmost
non-overlapping occurrences of `sep`.  The `fuel` argument only drives the
structural recursion (so that the function evaluates in the kernel); it is
always instantiated with the length of the list, which bounds the number of
steps. -/
def splitOnLAux (sep : List Char) : Nat → List Char → List (List Char)
  | _, [] => [[]]
  | 0, l => [l]
  | fuel + 1, x :: l =>
    if sep.isPrefixOf (x :: l) && !sep.isEmpty then
      [] :: splitOnLAux sep fuel (List.drop (sep.length - 1) l)
    else
      match splitOnLAux sep fuel l with
      | [] => [[x]]
      | y :: ys => (x :: y) :: ys

/-- Embedding of Rust `str::split` on a non-empty string pattern:
split on leftmost non-overlapping occurrences of `sep`. -/
def splitOnL (sep : List Char) (l : List Char) : List (List Char) :=
  splitOnLAux sep l.length l

/-- Whether `sep` occurs (as a contiguous run) anywhere in the list. -/
def hasOcc (sep : List Char) : List Char → Bool
  | [] => sep.isEmpty
  | x :: l => sep.isPrefixOf (x :: l) || hasOcc sep l

/-- Modelled from the spec: the product tag interpolated into the guard
markers is `env!("CARGO_PKG_NAME")` (src/business/mod.rs line 263), whose
value comes from Cargo.toml, which is not part of the sources; §8 Scenario C
of the spec fixes the tag to the literal text `app`. -/
def PACKAGE : List Char := "app".data

/-- The `open_guard` marker line built in `update_host_file`
(src/business/mod.rs line 265). -/
def openGuardFor (network target : List Char) : List Char :=
  "### open ".data ++ PACKAGE ++ " ".data ++ network ++ " ".data ++ target ++ "\n".data

/-- The `close_guard` marker line built in `update_host_file`
(src/business/mod.rs line 266). -/
def closeGuardFor (network target : List Char) : List Char :=
  "### close ".data ++ PACKAGE ++ " ".data ++ network ++ " ".data ++ target ++ "\n".data

/-- `trim_host_from_guards` (src/business/mod.rs lines 277-287):
the part of `file` before the first occurrence of `open_guard`, followed by
the second segment of the split on `close_guard` (the text between the first
and second occurrences, or after the first when it is the last). -/
def trim_host_from_guards (file open_guard close_guard : List Char) : List Char :=
  ((splitOnL open_guard file).headD []) ++ (((splitOnL close_guard file).get? 1).getD [])

/-- The body of the managed block: one line `<host>\t<line>\n` per entry
(src/business/mod.rs line 273). -/
def hostLines (lines : List (List Char)) (host : List Char) : List Char :=
  (lines.map (fun s => host ++ ('\t' :: s) ++ ['\n'])).flatten

/-- `update_host_file` (src/business/mod.rs lines 262-275). -/
def update_host_file (file : List Char) (lines : List (List Char))
    (network target host : List Char) : List Char :=
  let open_guard := openGuardFor network target
  let close_guard := closeGuardFor network target
  let content := trim_host_from_guards file open_guard close_guard
  content ++ open_guard ++ hostLines lines host ++ close_guard

/-- Rust slice semantics for `&self.id[0..16]`: the first `n` bytes of the
UTF-8 encoding, `none` when the string is shorter than `n` bytes or byte `n`
is not a character boundary (both panic in Rust). -/
def sliceBytes : List Char → Nat → Option (List Char)
  | _, 0 => some []
  | [], _ + 1 => none
  | c :: cs, n + 1 =>
    if c.utf8Size ≤ n + 1 then
      (sliceBytes cs (n + 1 - c.utf8Size)).map (fun r => c :: r)
    else
      none

/-- The UTF-8 byte length of a character list. -/
def utf8Len (l : List Char) : Nat := (l.map Char.utf8Size).sum

/-- `Container::hash` (src/business/mod.rs lines 111-113): `&self.id[0..16]`,
`none` modeling the panic. -/
def Container.hash (self : Container) : Option (List Char) :=
  sliceBytes self.id.data 16

/-- `impl Display for Container` (src/business/mod.rs lines 72-100);
`none` when `Container::hash` panics. -/
def displayContainer (self : Container) : Option String :=
  (Container.hash self).map (fun h =>
    "container " ++ String.mk h
      ++ (if self.flag.isSome then " flagged" else " unflagged")
      ++ (match self.service with
          | some service => " service " ++ service
          | none => "")
      ++ (match self.name with
          | some name => " named " ++ name
          | none => " unnamed")
      ++ (match self.ip with
          | some ip => " in network at ip " ++ ip
          | none => " orphan"))

/-- The first log line written for each event by `CurrentStack::loop_once`
(src/business/mod.rs lines 135-165); `none` when formatting panics. -/
def eventLogLine : StackEvents → Option String
  | StackEvents.Target container known _ =>
    (displayContainer container).map (fun s =>
      "event found target: " ++ s ++ " applying it to known " ++ toString known.length
        ++ " containers")
  | StackEvents.New container =>
    (displayContainer container).map (fun s => "event container match: " ++ s)
  | StackEvents.Gone container =>
    (displayContainer container).map (fun s => "event container gone: " ++ s)
  | StackEvents.NoFlag container =>
    (displayContainer container).map (fun s => "event container ignored (label): " ++ s)
  | StackEvents.OutsideNetwork container =>
    (displayContainer container).map (fun s => "event container ignored (network): " ++ s)

/-- Concrete configuration used in witnesses and counterexamples. -/
def cfgA : Config := ⟨"net", "flag", "tgt", ["web"]⟩

/-- A previously tracked container with both flag and ip. -/
def contA : Container := ⟨"aaaa", some "a", none, some "10.0.0.1", some "1"⟩

/-- Raw snapshot entry for the already-tracked container. -/
def rawA : RawContainer := ⟨"aaaa", some "a", [("net", "10.0.0.1")], [("flag", "1")]⟩

/-- Raw snapshot entry for a first-sighted flagged dependent. -/
def rawB : RawContainer := ⟨"bbbb", some "b", [("net", "10.0.0.2")], [("flag", "1")]⟩

/-- Raw snapshot entry for the first-sighted target service container. -/
def rawT : RawContainer :=
  ⟨"tttt", some "t", [("net", "10.0.0.9")], [("com.docker.compose.service", "tgt")]⟩

/-- The previously tracked map used in counterexamples. -/
def knownA : List (String × Container) := [("aaaa", contA)]

/-- Snapshot iteration order: dependent `bbbb` before target `tttt`. -/
def rawsBT : List (String × RawContainer) :=
  [("aaaa", rawA), ("bbbb", rawB), ("tttt", rawT)]

/-- Snapshot iteration order: target `tttt` before dependent `bbbb`. -/
def rawsTB : List (String × RawContainer) :=
  [("aaaa", rawA), ("tttt", rawT), ("bbbb", rawB)]

/-- A docker collaborator whose state counts polls and whose every
hosts-patch request fails. -/
def failingDocker : DockerOps Nat String :=
  ⟨fun s => Except.ok (s + 1, [("bbbb", rawB), ("tttt", rawT)]),
   fun _ _ _ _ _ _ => Except.error "no name"⟩

/-- The initial stack state built by `CurrentStack::new`. -/
def stack0 : CurrentStack := ⟨cfgA, none, []⟩

/-- A container whose id is shorter than 16 bytes. -/
def shortC : Container := ⟨"short", none, none, none, none⟩

/-- A container whose id is at least 16 bytes with a boundary at byte 16. -/
def okC : Container := ⟨"0123456789abcdef0123", some "n", none, some "10.0.0.3", some "1"⟩

/-! ### Association-list map lemmas -/

theorem NodupKeys_cons {α : Type} (kv : String × α) (l : List (String × α)) :
    NodupKeys (kv :: l) ↔ kv.1 ∉ l.map Prod.fst ∧ NodupKeys l := by
  unfold NodupKeys
  simp [List.nodup_cons]

theorem lookupKey_eq_none_iff {α : Type} (k : String) (l : List (String × α)) :
    lookupKey k l = none ↔ k ∉ l.map Prod.fst := by
  induction l with
  | nil => simp [lookupKey]
  | cons kv rest ih =>
    by_cases h : kv.1 == k
    · have hk : kv.1 = k := by simpa using h
      simp [lookupKey, h, hk]
    · have hk : ¬ k = kv.1 := fun he => (by simpa using h : ¬ kv.1 = k) he.symm
      simp [lookupKey, h, ih, hk]

theorem containsKey_eq_true_iff {α : Type} (k : String) (l : List (String × α)) :
    containsKey k l = true ↔ k ∈ l.map Prod.fst := by
  unfold containsKey
  rw [Option.isSome_iff_ne_none, ne_eq, lookupKey_eq_none_iff]
  simp

theorem containsKey_eq_false_iff {α : Type} (k : String) (l : List (String × α)) :
    containsKey k l = false ↔ k ∉ l.map Prod.fst := by
  constructor
  · intro h hmem
    have := (containsKey_eq_true_iff k l).mpr hmem
    rw [h] at this
    exact Bool.noConfusion this
  · intro hmem
    cases hc : containsKey k l
    · rfl
    · exact absurd ((containsKey_eq_true_iff k l).mp hc) hmem

theorem containsKey_cons {α : Type} (k : String) (kv : String × α) (l : List (String × α)) :
    containsKey k (kv :: l) = ((kv.1 == k) || containsKey k l) := by
  by_cases h : kv.1 == k <;> simp [containsKey, lookupKey, h]

theorem lookupKey_append {α : Type} (k : String) (l₁ l₂ : List (String × α)) :
    lookupKey k (l₁ ++ l₂) = (lookupKey k l₁).or (lookupKey k l₂) := by
  induction l₁ with
  | nil => simp [lookupKey]
  | cons kv rest ih =>
    by_cases h : kv.1 == k <;> simp [lookupKey, h, ih]

theorem containsKey_append {α : Type} (k : String) (l₁ l₂ : List (String × α)) :
    containsKey k (l₁ ++ l₂) = (containsKey k l₁ || containsKey k l₂) := by
  unfold containsKey
  rw [lookupKey_append]
  rcases lookupKey k l₁ with _ | v <;> simp

theorem lookupKey_filter_key {α : Type} (p : String → Bool) (k : String)
    (l : List (String × α)) :
    lookupKey k (l.filter (fun kv => p kv.1)) = if p k then lookupKey k l else none := by
  induction l with
  | nil => simp [lookupKey]
  | cons kv rest ih =>
    by_cases h : kv.1 == k
    · have hk : kv.1 = k := by simpa using h
      by_cases hp : p kv.1
      · rw [hk] at hp
        simp [List.filter_cons, hk, hp, lookupKey, h]
      · rw [hk] at hp
        simp [List.filter_cons, hk, hp, lookupKey, h, ih]
    · by_cases hp : p kv.1 <;> simp [List.filter_cons, hp, lookupKey, h, ih]

theorem filter_key_eq_nil {α : Type} (k : String) (l : List (String × α))
    (h : containsKey k l = false) :
    l.filter (fun kv => kv.1 == k) = [] := by
  rw [List.filter_eq_nil_iff]
  intro kv hkv
  have hmem := (containsKey_eq_false_iff k l).mp h
  intro hb
  exact hmem (by exact List.mem_map.mpr ⟨kv, hkv, by simpa using hb⟩)

theorem filter_key_eq_single {α : Type} (k : String) (v : α) (l : List (String × α))
    (h : NodupKeys l) (hl : lookupKey k l = some v) :
    l.filter (fun kv => kv.1 == k) = [(k, v)] := by
  induction l with
  | nil => exact Option.noConfusion hl
  | cons kv rest ih =>
    have hnd : NodupKeys rest := ((NodupKeys_cons kv rest).mp h).2
    by_cases hb : kv.1 == k
    · have hk : kv.1 = k := by simpa using hb
      have hv : kv.2 = v := by
        have hs : some kv.2 = some v := by
          rw [← hl]
          simp [lookupKey, hb]
        exact Option.some.inj hs
      have hrest : rest.filter (fun kv => kv.1 == k) = [] := by
        apply filter_key_eq_nil
        rw [containsKey_eq_false_iff]
        have hnotin := ((NodupKeys_cons kv rest).mp h).1
        rw [hk] at hnotin
        exact hnotin
      have hkv : kv = (k, v) := by
        cases kv with
        | mk a b =>
          simp only at hk hv
          rw [hk, hv]
      simp [List.filter_cons, hb, hrest, hkv]
    · have hrest : lookupKey k rest = some v := by
        simp only [lookupKey, hb, if_false] at hl
        simpa using hl
      simp [List.filter_cons, hb, ih hnd hrest]

theorem lookupKey_map_pair {α β : Type} (f : String → α → β) (k : String)
    (l : List (String × α)) :
    lookupKey k (l.map (fun kv => (kv.1, f kv.1 kv.2))) = (lookupKey k l).map (f k) := by
  induction l with
  | nil => simp [lookupKey]
  | cons kv rest ih =>
    by_cases h : kv.1 == k
    · have hk : kv.1 = k := by simpa using h
      simp [lookupKey, h, hk]
    · simp [lookupKey, h, ih]

theorem removeKey_eq_filter {α : Type} (k : String) (l : List (String × α)) :
    removeKey k l = l.filter (fun kv => (fun a => a != k) kv.1) := rfl

theorem lookupKey_removeKey {α : Type} (k k' : String) (l : List (String × α)) :
    lookupKey k' (removeKey k l) = if k' != k then lookupKey k' l else none := by
  rw [removeKey_eq_filter]
  exact lookupKey_filter_key (fun a => a != k) k' l

theorem containsKey_removeKey {α : Type} (k k' : String) (l : List (String × α)) :
    containsKey k' (removeKey k l) = ((k' != k) && containsKey k' l) := by
  unfold containsKey
  rw [lookupKey_removeKey]
  by_cases h : k' != k <;> simp [h]

theorem containsKey_perm {α : Type} {l₁ l₂ : List (String × α)} (h : l₁.Perm l₂)
    (k : String) : containsKey k l₁ = containsKey k l₂ := by
  have hm : k ∈ l₁.map Prod.fst ↔ k ∈ l₂.map Prod.fst := (h.map Prod.fst).mem_iff
  cases hc : containsKey k l₂
  · rw [containsKey_eq_false_iff] at hc ⊢
    exact fun hmem => hc (hm.mp hmem)
  · rw [containsKey_eq_true_iff] at hc ⊢
    exact hm.mpr hc

theorem mem_of_lookupKey_eq_some {α : Type} {l : List (String × α)} {k : String} {v : α}
    (h : lookupKey k l = some v) : (k, v) ∈ l := by
  induction l with
  | nil => exact Option.noConfusion h
  | cons kv rest ih =>
    by_cases hb : kv.1 == k
    · have hk : kv.1 = k := by simpa using hb
      have hv : kv.2 = v := by
        have hs : some kv.2 = some v := by
          rw [← h]
          simp [lookupKey, hb]
        exact Option.some.inj hs
      have : kv = (k, v) := by
        cases kv with
        | mk a b =>
          simp only at hk hv
          rw [hk, hv]
      rw [← this]
      exact List.mem_cons_self kv rest
    · have hrest : lookupKey k rest = some v := by
        simp only [lookupKey, hb, if_false] at h
        simpa using h
      exact List.mem_cons_of_mem kv (ih hrest)

theorem lookupKey_eq_some_of_mem {α : Type} {l : List (String × α)} {k : String} {v : α}
    (h : NodupKeys l) (hmem : (k, v) ∈ l) : lookupKey k l = some v := by
  induction l with
  | nil => exact absurd hmem (List.not_mem_nil _)
  | cons kv rest ih =>
    rcases List.mem_cons.mp hmem with he | hm
    · rw [← he]
      simp [lookupKey]
    · have hk : ¬ kv.1 = k := by
        intro hkk
        exact ((NodupKeys_cons kv rest).mp h).1
          (hkk ▸ List.mem_map.mpr ⟨(k, v), hm, rfl⟩)
      have hb : (kv.1 == k) = false := by simpa using hk
      simp [lookupKey, hb, ih ((NodupKeys_cons kv rest).mp h).2 hm]

theorem lookupKey_perm {α : Type} {l₁ l₂ : List (String × α)} (hp : l₁.Perm l₂)
    (h : NodupKeys l₁) (k : String) : lookupKey k l₁ = lookupKey k l₂ := by
  have h₂ : NodupKeys l₂ := by
    unfold NodupKeys at h ⊢
    exact (hp.map Prod.fst).nodup_iff.mp h
  cases ho : lookupKey k l₁ with
  | some v =>
    exact (lookupKey_eq_some_of_mem h₂ (hp.mem_iff.mp (mem_of_lookupKey_eq_some ho))).symm
  | none =>
    rw [lookupKey_eq_none_iff] at ho
    rw [eq_comm, lookupKey_eq_none_iff]
    exact fun hmem => ho ((hp.map Prod.fst).mem_iff.mpr hmem)

theorem insertKey_of_not_contains {α : Type} (k : String) (v : α) (m : List (String × α))
    (h : containsKey k m = false) : insertKey k v m = m ++ [(k, v)] := by
  simp [insertKey, h]

theorem insertList_cons (cfg : Config) (m : List (String × Container))
    (kv : String × RawContainer) (rest : List (String × RawContainer)) :
    insertList cfg m (kv :: rest)
      = insertList cfg (insertKey kv.1 (deriveContainer cfg kv.1 kv.2) m) rest := rfl

theorem insertList_fresh (cfg : Config) (m : List (String × Container))
    (l : List (String × RawContainer)) (h : ∀ kv ∈ l, containsKey kv.1 m = false)
    (hnd : NodupKeys l) :
    insertList cfg m l = m ++ l.map (fun kv => (kv.1, deriveContainer cfg kv.1 kv.2)) := by
  induction l generalizing m with
  | nil => simp [insertList]
  | cons kv rest ih =>
    have h0 := h kv (List.mem_cons_self kv rest)
    have hfresh : ∀ kv' ∈ rest,
        containsKey kv'.1 (m ++ [(kv.1, deriveContainer cfg kv.1 kv.2)]) = false := by
      intro kv' hm
      have h1 := h kv' (List.mem_cons_of_mem kv hm)
      have hne : ¬ kv.1 = kv'.1 := by
        intro he
        exact ((NodupKeys_cons kv rest).mp hnd).1 (he ▸ List.mem_map.mpr ⟨kv', hm, rfl⟩)
      rw [containsKey_append, h1]
      simp [containsKey, lookupKey, hne]
    rw [insertList_cons, insertKey_of_not_contains kv.1 _ m h0,
      ih _ hfresh ((NodupKeys_cons kv rest).mp hnd).2]
    simp

theorem phase2_snd (cfg : Config) : ∀ (rem : List (String × RawContainer))
    (m : List (String × Container)), (phase2 cfg rem m).2 = insertList cfg m rem := by
  intro rem
  induction rem with
  | nil => intro m; rfl
  | cons kv rest ih =>
    intro m
    cases kv with
    | mk id new => exact ih (insertKey id (deriveContainer cfg id new) m)

theorem phase2_fst_get (cfg : Config) : ∀ (rem : List (String × RawContainer))
    (m : List (String × Container)) (i : Nat),
    (phase2 cfg rem m).1.get? i
      = (rem.get? i).map (fun kv => classifyEvent cfg (insertList cfg m (rem.take i)) kv.1 kv.2) := by
  intro rem
  induction rem with
  | nil => intro m i; simp [phase2]
  | cons kv rest ih =>
    intro m i
    cases kv with
    | mk id new =>
      cases i with
      | zero => simp [phase2, insertList]
      | succ j =>
        have := ih (insertKey id (deriveContainer cfg id new) m) j
        simpa [phase2, insertList_cons] using this

theorem phase1_eq (known : List (String × Container)) :
    ∀ (raws : List (String × RawContainer)), NodupKeys known →
    phase1 known raws =
      ((known.filter (fun kv => !(containsKey kv.1 raws))).map (fun kv => StackEvents.Gone kv.2),
       known.filter (fun kv => containsKey kv.1 raws),
       raws.filter (fun kv => !(containsKey kv.1 known))) := by
  induction known with
  | nil =>
    intro raws _
    simp [phase1, containsKey, lookupKey]
  | cons kv rest ih =>
    intro raws h
    obtain ⟨hid, hrest⟩ := (NodupKeys_cons kv rest).mp h
    cases kv with
    | mk id container =>
      simp only at hid
      by_cases hc : containsKey id raws
      · have e1 : rest.filter (fun kv => !(containsKey kv.1 (removeKey id raws)))
            = rest.filter (fun kv => !(containsKey kv.1 raws)) := by
          apply List.filter_congr
          intro kv hkv
          have hne : ¬ kv.1 = id := fun he => hid (he ▸ List.mem_map.mpr ⟨kv, hkv, rfl⟩)
          rw [containsKey_removeKey]
          have hb : (kv.1 != id) = true := by simp [bne, hne]
          rw [hb]
          simp
        have e2 : rest.filter (fun kv => containsKey kv.1 (removeKey id raws))
            = rest.filter (fun kv => containsKey kv.1 raws) := by
          apply List.filter_congr
          intro kv hkv
          have hne : ¬ kv.1 = id := fun he => hid (he ▸ List.mem_map.mpr ⟨kv, hkv, rfl⟩)
          rw [containsKey_removeKey]
          have hb : (kv.1 != id) = true := by simp [bne, hne]
          rw [hb]
          simp
        have e3 : (removeKey id raws).filter (fun kv => !(containsKey kv.1 rest))
            = raws.filter (fun kv => !(containsKey kv.1 ((id, container) :: rest))) := by
          rw [removeKey_eq_filter, List.filter_filter]
          apply List.filter_congr
          intro kv _
          rw [containsKey_cons]
          by_cases hkk : kv.1 = id
          · simp [hkk]
          · have ha : (id == kv.1) = false := by
              simp only [beq_eq_false_iff_ne, ne_eq]
              exact fun he => hkk he.symm
            have hb2 : (kv.1 == id) = false := by simpa using hkk
            simp [ha, hb2, bne]
        simp only [phase1, hc, if_true, ih (removeKey id raws) hrest, e1, e2, e3,
          List.filter_cons, Bool.not_true, List.map_cons]
        simp [hc]
      · have hcf : containsKey id raws = false := by
          cases hcc : containsKey id raws
          · rfl
          · exact absurd hcc hc
        have e3 : raws.filter (fun kv => !(containsKey kv.1 rest))
            = raws.filter (fun kv => !(containsKey kv.1 ((id, container) :: rest))) := by
          apply List.filter_congr
          intro kv hkv
          have hne : ¬ id = kv.1 := by
            intro he
            have : id ∈ raws.map Prod.fst := he ▸ List.mem_map.mpr ⟨kv, hkv, rfl⟩
            exact (containsKey_eq_false_iff id raws).mp hcf this
          rw [containsKey_cons]
          have hb : (id == kv.1) = false := by simpa using hne
          rw [hb]
          simp
        simp only [phase1, hcf, Bool.false_eq_true, if_false, ih raws hrest, e3,
          List.filter_cons, Bool.not_false, List.map_cons]
        simp [hcf]

theorem deriveContainer_id (cfg : Config) (id : String) (new : RawContainer) :
    (deriveContainer cfg id new).id = id := rfl

theorem participants_nil : participants [] = [] := rfl

theorem participants_append (a b : List (String × Container)) :
    participants (a ++ b) = participants a ++ participants b := by
  simp [participants, List.filter_append]

theorem strip_classifyEvent (cfg : Config) (m : List (String × Container)) (id : String)
    (new : RawContainer) :
    stripEv (classifyEvent cfg m id new) = classifyEvent cfg [] id new := by
  unfold classifyEvent
  by_cases hip : (lookupKey cfg.network new.networks).isSome = true
  · by_cases hsvc : some cfg.target = lookupKey "com.docker.compose.service" new.labels
    · simp [hip, hsvc, stripEv, participants]
    · by_cases hflag : (lookupKey cfg.label_key new.labels).isSome = true
      · simp [hip, hsvc, hflag, stripEv]
      · simp [hip, hsvc, hflag, stripEv]
  · simp [hip, stripEv]

theorem evKind_stripEv (e : StackEvents) : evKind (stripEv e) = evKind e := by
  cases e <;> rfl

theorem evKind_classify_irrel (cfg : Config) (m : List (String × Container)) (id : String)
    (new : RawContainer) :
    evKind (classifyEvent cfg m id new) = evKind (classifyEvent cfg [] id new) := by
  rw [← strip_classifyEvent cfg m id new, evKind_stripEv]

theorem evPrimary_classifyEvent (cfg : Config) (m : List (String × Container)) (id : String)
    (new : RawContainer) :
    evPrimary (classifyEvent cfg m id new) = deriveContainer cfg id new := by
  unfold classifyEvent
  by_cases hip : (lookupKey cfg.network new.networks).isSome = true
  · by_cases hsvc : some cfg.target = lookupKey "com.docker.compose.service" new.labels
    · simp [hip, hsvc, evPrimary]
    · by_cases hflag : (lookupKey cfg.label_key new.labels).isSome = true
      · simp [hip, hsvc, hflag, evPrimary]
      · simp [hip, hsvc, hflag, evPrimary]
  · simp [hip, evPrimary]

theorem eventsAbout_append (id : String) (a b : List StackEvents) :
    eventsAbout id (a ++ b) = eventsAbout id a ++ eventsAbout id b := by
  simp [eventsAbout, List.filter_append]

theorem eventsAbout_gones (id : String) (l : List (String × Container))
    (hwf : ∀ kv ∈ l, (kv.2 : Container).id = kv.1) :
    eventsAbout id (l.map (fun kv => StackEvents.Gone kv.2))
      = (l.filter (fun kv => kv.1 == id)).map (fun kv => StackEvents.Gone kv.2) := by
  induction l with
  | nil => rfl
  | cons kv rest ih =>
    have hh := hwf kv (List.mem_cons_self kv rest)
    have ih' := ih (fun kv' hm => hwf kv' (List.mem_cons_of_mem kv hm))
    have hcond : ((evPrimary (StackEvents.Gone kv.2)).id == id) = (kv.1 == id) := by
      simp only [evPrimary, hh]
    by_cases hb : (kv.1 == id)
    · simp only [List.map_cons, eventsAbout, List.filter_cons, hcond, hb, if_true] at ih' ⊢
      simp [ih']
    · have hbf : (kv.1 == id) = false := by
        cases hbb : (kv.1 == id)
        · rfl
        · exact absurd hbb hb
      simp only [List.map_cons, eventsAbout, List.filter_cons, hcond, hbf] at ih' ⊢
      simp [ih']

theorem phase2_eventsAbout_kinds (cfg : Config) (id : String) :
    ∀ (rem : List (String × RawContainer)) (m : List (String × Container)),
    (eventsAbout id (phase2 cfg rem m).1).map evKind
      = (rem.filter (fun kv => kv.1 == id)).map
          (fun kv => evKind (classifyEvent cfg [] kv.1 kv.2)) := by
  intro rem
  induction rem with
  | nil => intro m; rfl
  | cons kv rest ih =>
    intro m
    cases kv with
    | mk k new =>
      have hprim : ((evPrimary (classifyEvent cfg m k new)).id == id) = (k == id) := by
        rw [evPrimary_classifyEvent, deriveContainer_id]
      have ih' := ih (insertKey k (deriveContainer cfg k new) m)
      by_cases hb : (k == id)
      · simp only [phase2, eventsAbout, List.filter_cons, hprim, hb, if_true] at ih' ⊢
        simp only [List.map_cons, ih']
        rw [evKind_classify_irrel]
      · have hbf : (k == id) = false := by
          cases hbb : (k == id)
          · rfl
          · exact absurd hbb hb
        simp only [phase2, eventsAbout, List.filter_cons, hprim, hbf] at ih' ⊢
        exact ih'

theorem bool_eq_false {b : Bool} (h : ¬ b = true) : b = false := by
  cases b
  · rfl
  · exact absurd rfl h

theorem NodupKeys_filter {α : Type} (p : String × α → Bool) (l : List (String × α))
    (h : NodupKeys l) : NodupKeys (l.filter p) := by
  unfold NodupKeys at h ⊢
  exact List.Nodup.sublist ((l.filter_sublist).map Prod.fst) h

theorem filter_key_comm {α : Type} (k : String) (p : String × α → Bool)
    (l : List (String × α)) :
    (l.filter p).filter (fun kv => kv.1 == k)
      = (l.filter (fun kv => kv.1 == k)).filter p := by
  rw [List.filter_filter, List.filter_filter]
  exact List.filter_congr (fun a _ => Bool.and_comm _ _)

theorem actualize_snd_eq (cfg : Config) (known : List (String × Container))
    (raws : List (String × RawContainer)) (hk : NodupKeys known) (hr : NodupKeys raws) :
    (actualize cfg known raws).2
      = known.filter (fun kv => containsKey kv.1 raws)
        ++ (raws.filter (fun kv => !(containsKey kv.1 known))).map
             (fun kv => (kv.1, deriveContainer cfg kv.1 kv.2)) := by
  unfold actualize
  simp only
  rw [phase1_eq known raws hk, phase2_snd]
  apply insertList_fresh
  · intro kv hm
    have hmem := List.mem_filter.mp hm
    have hnc : containsKey kv.1 known = false := by
      have := hmem.2
      cases hcc : containsKey kv.1 known
      · rfl
      · rw [hcc] at this
        exact absurd this (by simp)
    rw [containsKey_eq_false_iff] at hnc ⊢
    intro hin
    apply hnc
    obtain ⟨kv', hkv', he⟩ := List.mem_map.mp hin
    exact List.mem_map.mpr ⟨kv', (List.mem_filter.mp hkv').1, he⟩
  · exact NodupKeys_filter _ raws hr

theorem lookup_actualize (cfg : Config) (known : List (String × Container))
    (raws : List (String × RawContainer)) (hk : NodupKeys known) (hr : NodupKeys raws)
    (id : String) :
    lookupKey id (actualize cfg known raws).2
      = if containsKey id known
        then (if containsKey id raws then lookupKey id known else none)
        else (lookupKey id raws).map (deriveContainer cfg id) := by
  rw [actualize_snd_eq cfg known raws hk hr, lookupKey_append, lookupKey_map_pair]
  have h1 : lookupKey id (known.filter (fun kv => containsKey kv.1 raws))
      = if containsKey id raws then lookupKey id known else none := by
    have h := lookupKey_filter_key (fun a => containsKey a raws) id known
    simpa using h
  have h3 : lookupKey id (raws.filter (fun kv => !(containsKey kv.1 known)))
      = if containsKey id known then none else lookupKey id raws := by
    have h := lookupKey_filter_key (fun a => !(containsKey a known)) id raws
    by_cases hck : containsKey id known = true
    · simp only [hck] at h ⊢
      simpa using h
    · rw [bool_eq_false hck] at h
      rw [bool_eq_false hck]
      simpa using h
  rw [h1, h3]
  by_cases hck : containsKey id known = true
  · by_cases hcr : containsKey id raws = true
    · have hs : (lookupKey id known).isSome = true := hck
      rcases ho : lookupKey id known with _ | v
      · rw [ho] at hs
        exact Bool.noConfusion hs
      · simp [hck, hcr, ho]
    · simp [hck, bool_eq_false hcr]
  · have hnone : lookupKey id known = none := by
      rw [lookupKey_eq_none_iff]
      exact (containsKey_eq_false_iff id known).mp (bool_eq_false hck)
    simp [bool_eq_false hck, hnone]

theorem phase2_map_strip (cfg : Config) : ∀ (rem : List (String × RawContainer))
    (m : List (String × Container)),
    (phase2 cfg rem m).1.map stripEv
      = rem.map (fun kv => classifyEvent cfg [] kv.1 kv.2) := by
  intro rem
  induction rem with
  | nil => intro m; rfl
  | cons kv rest ih =>
    intro m
    cases kv with
    | mk k new =>
      simp only [phase2, List.map_cons, strip_classifyEvent,
        ih (insertKey k (deriveContainer cfg k new) m)]

theorem actualize_fst_eq (cfg : Config) (known : List (String × Container))
    (raws : List (String × RawContainer)) (hk : NodupKeys known) :
    (actualize cfg known raws).1
      = (known.filter (fun kv => !(containsKey kv.1 raws))).map (fun kv => StackEvents.Gone kv.2)
        ++ (phase2 cfg (raws.filter (fun kv => !(containsKey kv.1 known)))
             (known.filter (fun kv => containsKey kv.1 raws))).1 := by
  unfold actualize
  simp only
  rw [phase1_eq known raws hk]

theorem evKind_classify_spec (cfg : Config) (m : List (String × Container)) (id : String)
    (new : RawContainer) :
    evKind (classifyEvent cfg m id new)
      = (if (lookupKey cfg.network new.networks).isSome
            ∧ lookupKey "com.docker.compose.service" new.labels = some cfg.target
         then EvKind.target
         else if (lookupKey cfg.network new.networks).isSome
            ∧ (lookupKey cfg.label_key new.labels).isSome
         then EvKind.fresh
         else if (lookupKey cfg.network new.networks).isSome
         then EvKind.noflag
         else EvKind.outside) := by
  unfold classifyEvent
  by_cases hip : (lookupKey cfg.network new.networks).isSome = true
  · by_cases hsvc : lookupKey "com.docker.compose.service" new.labels = some cfg.target
    · simp [hip, hsvc, evKind]
    · have hsvc' : ¬ some cfg.target = lookupKey "com.docker.compose.service" new.labels :=
        fun he => hsvc he.symm
      by_cases hflag : (lookupKey cfg.label_key new.labels).isSome = true
      · simp [hip, hsvc, hsvc', hflag, evKind]
      · simp [hip, hsvc, hsvc', hflag, evKind]
  · simp [hip, evKind]

/-- C4: for every previous tracked map and every snapshot, after `actualize`
the key set of the retained tracked map equals exactly the key set of the
snapshot: every snapshot identity (including unflagged and out-of-network
containers) is tracked, and no identity absent from the snapshot remains
tracked. -/
theorem tracked_keys_eq_snapshot_keys (cfg : Config) (known : List (String × Container))
    (raws : List (String × RawContainer)) (hk : NodupKeys known) (hr : NodupKeys raws) :
    ∀ id, containsKey id (actualize cfg known raws).2 = containsKey id raws := by
  intro id
  show (lookupKey id (actualize cfg known raws).2).isSome = containsKey id raws
  rw [lookup_actualize cfg known raws hk hr id]
  by_cases hck : containsKey id known = true
  · by_cases hcr : containsKey id raws = true
    · rw [hck, hcr]
      simp only [if_true]
      exact hck
    · rw [hck, bool_eq_false hcr]
      simp [bool_eq_false hcr]
  · rw [bool_eq_false hck]
    simp only [Bool.false_eq_true, if_false]
    cases ho : lookupKey id raws <;> simp [containsKey, ho]

/-- Witness for C4 at a concrete previous map and snapshot. -/
theorem tracked_keys_eq_snapshot_keys_witness :
    NodupKeys knownA ∧ NodupKeys rawsBT ∧
    ∀ id, containsKey id (actualize cfgA knownA rawsBT).2 = containsKey id rawsBT :=
  ⟨by decide, by decide,
    tracked_keys_eq_snapshot_keys cfgA knownA rawsBT (by decide) (by decide)⟩

/-- C5: classification is total and exclusive.  For every identity present in
the snapshot but not previously tracked, `actualize` emits exactly one event
about it, whose kind follows the ip/service/flag predicate table (Target if
ip present and compose-service label equals the configured target, else New
if ip and configured label are present, else NoFlag if only ip is present,
else OutsideNetwork); and for every previously tracked identity absent from
the snapshot, `actualize` emits exactly one `Gone` event about it. -/
theorem classification_total_gone_complete (cfg : Config)
    (known : List (String × Container)) (raws : List (String × RawContainer))
    (hk : NodupKeys known) (hr : NodupKeys raws)
    (hwf : ∀ kv ∈ known, (kv.2 : Container).id = kv.1) :
    (∀ id r, lookupKey id raws = some r → containsKey id known = false →
      (eventsAbout id (actualize cfg known raws).1).map evKind
        = [if (lookupKey cfg.network r.networks).isSome
              ∧ lookupKey "com.docker.compose.service" r.labels = some cfg.target
           then EvKind.target
           else if (lookupKey cfg.network r.networks).isSome
              ∧ (lookupKey cfg.label_key r.labels).isSome
           then EvKind.fresh
           else if (lookupKey cfg.network r.networks).isSome
           then EvKind.noflag
           else EvKind.outside])
    ∧ (∀ id, containsKey id known = true → containsKey id raws = false →
      (eventsAbout id (actualize cfg known raws).1).map evKind = [EvKind.gone]) := by
  have hact := actualize_fst_eq cfg known raws hk
  constructor
  · intro id r hlr hck
    rw [hact, eventsAbout_append, List.map_append]
    have hgones := eventsAbout_gones id (known.filter (fun kv => !(containsKey kv.1 raws)))
      (fun kv hm => hwf kv (List.mem_filter.mp hm).1)
    have hgone_nil : (known.filter (fun kv => !(containsKey kv.1 raws))).filter
        (fun kv => kv.1 == id) = [] := by
      rw [List.filter_eq_nil_iff]
      intro kv hkv hbeq
      have hkid : kv.1 = id := by simpa using hbeq
      have : id ∈ known.map Prod.fst :=
        hkid ▸ List.mem_map.mpr ⟨kv, (List.mem_filter.mp hkv).1, rfl⟩
      exact absurd this ((containsKey_eq_false_iff id known).mp hck)
    have hrem : (raws.filter (fun kv => !(containsKey kv.1 known))).filter
        (fun kv => kv.1 == id) = [(id, r)] := by
      rw [filter_key_comm, filter_key_eq_single id r raws hr hlr]
      simp [hck]
    rw [hgones, hgone_nil, phase2_eventsAbout_kinds, hrem]
    simp only [List.map_nil, List.map_cons, List.nil_append]
    rw [evKind_classify_spec]
  · intro id hck hcr
    rw [hact, eventsAbout_append, List.map_append]
    have hs : (lookupKey id known).isSome = true := hck
    rcases ho : lookupKey id known with _ | c
    · rw [ho] at hs
      exact Bool.noConfusion hs
    · have hgones := eventsAbout_gones id (known.filter (fun kv => !(containsKey kv.1 raws)))
        (fun kv hm => hwf kv (List.mem_filter.mp hm).1)
      have hgone_one : (known.filter (fun kv => !(containsKey kv.1 raws))).filter
          (fun kv => kv.1 == id) = [(id, c)] := by
        rw [filter_key_comm, filter_key_eq_single id c known hk ho]
        simp [hcr]
      have hrem : (raws.filter (fun kv => !(containsKey kv.1 known))).filter
          (fun kv => kv.1 == id) = [] := by
        rw [filter_key_comm, filter_key_eq_nil id raws hcr]
        rfl
      rw [hgones, hgone_one, phase2_eventsAbout_kinds, hrem]
      simp [evKind]

/-- Witness for C5 at a concrete previous map and snapshot: identity `bbbb`
is first-sighted and classified New, identity `aaaa` disappears and yields
exactly one Gone. -/
theorem classification_total_gone_complete_witness :
    (eventsAbout "bbbb" (actualize cfgA knownA [("bbbb", rawB)]).1).map evKind
      = [if (lookupKey cfgA.network rawB.networks).isSome
            ∧ lookupKey "com.docker.compose.service" rawB.labels = some cfgA.target
         then EvKind.target
         else if (lookupKey cfgA.network rawB.networks).isSome
            ∧ (lookupKey cfgA.label_key rawB.labels).isSome
         then EvKind.fresh
         else if (lookupKey cfgA.network rawB.networks).isSome
         then EvKind.noflag
         else EvKind.outside]
    ∧ (eventsAbout "aaaa" (actualize cfgA knownA [("bbbb", rawB)]).1).map evKind
      = [EvKind.gone] :=
  ⟨(classification_total_gone_complete cfgA knownA [("bbbb", rawB)]
      (by decide) (by decide) (by decide)).1 "bbbb" rawB (by decide) (by decide),
   (classification_total_gone_complete cfgA knownA [("bbbb", rawB)]
      (by decide) (by decide) (by decide)).2 "aaaa" (by decide) (by decide)⟩

/-- C2 counterexample: with snapshot iteration order `rawsBT` (dependent
`bbbb` iterated before target `tttt`), the emitted `Target` event's
`activeParticipants` contains a container (`bbbb`) that was not tracked
before this tick, contradicting the claim that the list equals exactly the
pre-existing tracked containers with flag and ip. -/
theorem c2_counterexample :
    ((actualize cfgA knownA rawsBT).1.any (fun e =>
      match e with
      | StackEvents.Target _ parts _ => parts.any (fun p => !(containsKey p.id knownA))
      | _ => false)) = true := by
  decide

/-- C2 (amended): the `activeParticipants` of a `Target` event emitted for
the `i`-th first-sighted snapshot entry equals the already-tracked
containers that survived step 1 and have both flag and ip, followed by
those containers first sighted earlier in the same tick's iteration order
that have both flag and ip. -/
theorem target_participants_characterization (cfg : Config)
    (known : List (String × Container)) (raws : List (String × RawContainer))
    (hk : NodupKeys known) (hr : NodupKeys raws) :
    ∀ (i : Nat) (kv : String × RawContainer) (ipv : String),
    (raws.filter (fun kv => !(containsKey kv.1 known))).get? i = some kv →
    lookupKey cfg.network kv.2.networks = some ipv →
    lookupKey "com.docker.compose.service" kv.2.labels = some cfg.target →
    (actualize cfg known raws).1.get?
        ((known.filter (fun kv => !(containsKey kv.1 raws))).length + i)
      = some (StackEvents.Target (deriveContainer cfg kv.1 kv.2)
          (participants (known.filter (fun kv => containsKey kv.1 raws))
            ++ participants
                 (((raws.filter (fun kv => !(containsKey kv.1 known))).take i).map
                   (fun kv => (kv.1, deriveContainer cfg kv.1 kv.2))))
          ipv) := by
  intro i kv ipv hget hip hsvc
  rw [actualize_fst_eq cfg known raws hk]
  have hlen : ((known.filter (fun kv => !(containsKey kv.1 raws))).map
      (fun kv => StackEvents.Gone kv.2)).length
      = (known.filter (fun kv => !(containsKey kv.1 raws))).length := List.length_map _ _
  rw [List.get?_append_right (by rw [hlen]; exact Nat.le_add_right _ i)]
  rw [hlen, Nat.add_sub_cancel_left]
  rw [phase2_fst_get cfg (raws.filter (fun kv => !(containsKey kv.1 known)))
    (known.filter (fun kv => containsKey kv.1 raws)) i, hget]
  have hfresh : ∀ kv' ∈ (raws.filter (fun kv => !(containsKey kv.1 known))).take i,
      containsKey kv'.1 (known.filter (fun kv => containsKey kv.1 raws)) = false := by
    intro kv' hm
    have hmem : kv' ∈ raws.filter (fun kv => !(containsKey kv.1 known)) :=
      List.take_subset i _ hm
    have h2 := (List.mem_filter.mp hmem).2
    have hnc : containsKey kv'.1 known = false := by
      cases hcc : containsKey kv'.1 known
      · rfl
      · rw [hcc] at h2
        exact absurd h2 (by simp)
    rw [containsKey_eq_false_iff] at hnc ⊢
    intro hin
    apply hnc
    obtain ⟨kv'', hkv'', he⟩ := List.mem_map.mp hin
    exact List.mem_map.mpr ⟨kv'', (List.mem_filter.mp hkv'').1, he⟩
  have hndtake : NodupKeys ((raws.filter (fun kv => !(containsKey kv.1 known))).take i) := by
    unfold NodupKeys
    rw [List.map_take]
    exact List.Nodup.sublist (List.take_sublist _ _) (NodupKeys_filter _ raws hr)
  rw [insertList_fresh cfg _ _ hfresh hndtake]
  unfold classifyEvent
  simp [hip, hsvc, participants_append]

/-- Witness for the amended C2 at the concrete snapshot `rawsBT`:
the Target event for `tttt` carries the pre-tracked `aaaa` followed by the
same-tick earlier-iterated `bbbb`. -/
theorem target_participants_characterization_witness :
    (actualize cfgA knownA rawsBT).1.get?
        ((knownA.filter (fun kv => !(containsKey kv.1 rawsBT))).length + 1)
      = some (StackEvents.Target (deriveContainer cfgA "tttt" rawT)
          (participants (knownA.filter (fun kv => containsKey kv.1 rawsBT))
            ++ participants
                 (((rawsBT.filter (fun kv => !(containsKey kv.1 knownA))).take 1).map
                   (fun kv => (kv.1, deriveContainer cfgA kv.1 kv.2))))
          "10.0.0.9") :=
  target_participants_characterization cfgA knownA rawsBT (by decide) (by decide)
    1 ("tttt", rawT) "10.0.0.9" (by decide) (by decide) (by decide)

/-- C3 counterexample: two iteration orders of the same snapshot map
(`rawsBT` and `rawsTB` are permutations of each other) produce event lists
that are not permutations of each other: the `Target` event's
`activeParticipants` payload differs, so the emitted event multiset is not
independent of the internal iteration order. -/
theorem c3_counterexample :
    rawsBT.Perm rawsTB
    ∧ ¬ ((actualize cfgA knownA rawsBT).1.Perm ((actualize cfgA knownA rawsTB).1)) := by
  constructor
  · decide
  · decide

/-- C3 (amended): for a fixed previous tracked map and a fixed snapshot map,
`actualize` is deterministic up to the `activeParticipants` payloads of
`Target` events: under any two iteration orders the resulting tracked maps
agree on every lookup, and the event multisets agree after erasing the
`activeParticipants` lists. -/
theorem actualize_deterministic_up_to_participants (cfg : Config)
    (known₁ known₂ : List (String × Container)) (raws₁ raws₂ : List (String × RawContainer))
    (hk : NodupKeys known₁) (hr : NodupKeys raws₁)
    (hpk : known₁.Perm known₂) (hpr : raws₁.Perm raws₂) :
    (∀ id, lookupKey id (actualize cfg known₁ raws₁).2
        = lookupKey id (actualize cfg known₂ raws₂).2)
    ∧ ((actualize cfg known₁ raws₁).1.map stripEv).Perm
        ((actualize cfg known₂ raws₂).1.map stripEv) := by
  have hk₂ : NodupKeys known₂ := by
    unfold NodupKeys at hk ⊢
    exact (hpk.map Prod.fst).nodup_iff.mp hk
  have hr₂ : NodupKeys raws₂ := by
    unfold NodupKeys at hr ⊢
    exact (hpr.map Prod.fst).nodup_iff.mp hr
  constructor
  · intro id
    rw [lookup_actualize cfg known₁ raws₁ hk hr id,
      lookup_actualize cfg known₂ raws₂ hk₂ hr₂ id,
      containsKey_perm hpk id, containsKey_perm hpr id,
      lookupKey_perm hpk hk id, lookupKey_perm hpr hr id]
  · rw [actualize_fst_eq cfg known₁ raws₁ hk, actualize_fst_eq cfg known₂ raws₂ hk₂,
      List.map_append, List.map_append]
    apply List.Perm.append
    · have e₁ : ∀ (l : List (String × Container)),
          (l.map (fun kv => StackEvents.Gone kv.2)).map stripEv
            = l.map (fun kv => StackEvents.Gone kv.2) := by
        intro l
        rw [List.map_map]
        rfl
      rw [e₁, e₁]
      apply List.Perm.map
      have hfe : known₂.filter (fun kv => !(containsKey kv.1 raws₁))
          = known₂.filter (fun kv => !(containsKey kv.1 raws₂)) :=
        List.filter_congr (fun kv _ => by rw [containsKey_perm hpr kv.1])
      rw [← hfe]
      exact hpk.filter _
    · rw [phase2_map_strip, phase2_map_strip]
      apply List.Perm.map
      have hfe : raws₂.filter (fun kv => !(containsKey kv.1 known₁))
          = raws₂.filter (fun kv => !(containsKey kv.1 known₂)) :=
        List.filter_congr (fun kv _ => by rw [containsKey_perm hpk kv.1])
      rw [← hfe]
      exact hpr.filter _

/-- Witness for the amended C3 at the two concrete iteration orders. -/
theorem actualize_deterministic_up_to_participants_witness :
    (∀ id, lookupKey id (actualize cfgA knownA rawsBT).2
        = lookupKey id (actualize cfgA knownA rawsTB).2)
    ∧ ((actualize cfgA knownA rawsBT).1.map stripEv).Perm
        ((actualize cfgA knownA rawsTB).1.map stripEv) :=
  actualize_deterministic_up_to_participants cfgA knownA knownA rawsBT rawsTB
    (by decide) (by decide) (by decide) (by decide)

/-! ### Rewriter string lemmas -/

theorem hasOcc_of_infix (sep l : List Char) (h : sep <:+: l) : hasOcc sep l = true := by
  induction l with
  | nil =>
    have hnil : sep = [] := List.sublist_nil.mp h.sublist
    rw [hnil]
    rfl
  | cons x rest ih =>
    rcases List.infix_cons_iff.mp h with hpre | hinf
    · have hb : sep.isPrefixOf (x :: rest) = true := List.isPrefixOf_iff_prefix.mpr hpre
      simp [hasOcc, hb]
    · simp [hasOcc, ih hinf]

theorem prefix_of_append_of_le {p u v : List Char} (h : p <+: u ++ v)
    (hl : p.length ≤ u.length) : p <+: u := by
  have ht := List.prefix_iff_eq_take.mp h
  rw [List.take_append_eq_append_take, Nat.sub_eq_zero_of_le hl] at ht
  simp only [List.take_zero, List.append_nil] at ht
  rw [ht]
  exact List.take_prefix _ _

theorem splitOnLAux_irrel (sep : List Char) : ∀ (f₁ : Nat) (l : List Char) (f₂ : Nat),
    l.length ≤ f₁ → l.length ≤ f₂ → splitOnLAux sep f₁ l = splitOnLAux sep f₂ l := by
  intro f₁
  induction f₁ with
  | zero =>
    intro l f₂ h₁ _
    have hl : l = [] := List.length_eq_zero.mp (Nat.le_zero.mp h₁)
    subst hl
    cases f₂ <;> rfl
  | succ g₁ ih =>
    intro l f₂ h₁ h₂
    cases l with
    | nil => cases f₂ <;> rfl
    | cons x l' =>
      cases f₂ with
      | zero => exact absurd h₂ (by simp)
      | succ g₂ =>
        have hl₁ : l'.length ≤ g₁ := by simpa using h₁
        have hl₂ : l'.length ≤ g₂ := by simpa using h₂
        have hd₁ : (List.drop (sep.length - 1) l').length ≤ g₁ := by
          rw [List.length_drop]
          omega
        have hd₂ : (List.drop (sep.length - 1) l').length ≤ g₂ := by
          rw [List.length_drop]
          omega
        by_cases hc : (sep.isPrefixOf (x :: l') && !sep.isEmpty) = true
        · simp only [splitOnLAux]
          rw [if_pos hc, if_pos hc, ih (List.drop (sep.length - 1) l') g₂ hd₁ hd₂]
        · simp only [splitOnLAux]
          rw [if_neg hc, if_neg hc, ih l' g₂ hl₁ hl₂]

theorem splitOnL_of_no_occ_aux (sep : List Char) : ∀ (fuel : Nat) (l : List Char),
    l.length ≤ fuel → hasOcc sep l = false → splitOnLAux sep fuel l = [l] := by
  intro fuel
  induction fuel with
  | zero =>
    intro l h _
    have hl : l = [] := List.length_eq_zero.mp (Nat.le_zero.mp h)
    subst hl
    rfl
  | succ g ih =>
    intro l hlen h
    cases l with
    | nil => rfl
    | cons x rest =>
      have hor : (sep.isPrefixOf (x :: rest) || hasOcc sep rest) = false := h
      have hp : sep.isPrefixOf (x :: rest) = false := (Bool.or_eq_false_iff.mp hor).1
      have hrest : hasOcc sep rest = false := (Bool.or_eq_false_iff.mp hor).2
      have hl : rest.length ≤ g := by simpa using hlen
      simp only [splitOnLAux]
      rw [if_neg (by simp [hp]), ih rest hl hrest]

theorem splitOnL_of_no_occ (sep l : List Char) (h : hasOcc sep l = false) :
    splitOnL sep l = [l] :=
  splitOnL_of_no_occ_aux sep l.length l (Nat.le_refl _) h

theorem splitOnL_append_aux (sep : List Char) (hne : sep ≠ []) : ∀ (fuel : Nat)
    (a b : List Char), (a ++ (sep ++ b)).length ≤ fuel →
    hasOcc sep (a ++ sep.dropLast) = false →
    splitOnLAux sep fuel (a ++ (sep ++ b)) = a :: splitOnLAux sep b.length b := by
  intro fuel
  induction fuel with
  | zero =>
    intro a b hlen _
    exfalso
    have hpos : 1 ≤ sep.length := List.length_pos.mpr hne
    simp only [List.length_append] at hlen
    omega
  | succ g ih =>
    intro a b hlen h
    cases a with
    | nil =>
      rcases hsep : sep with _ | ⟨s, stail⟩
      · exact absurd hsep hne
      · subst hsep
        have hp : (s :: stail).isPrefixOf (s :: (stail ++ b)) = true :=
          List.isPrefixOf_iff_prefix.mpr (List.prefix_append (s :: stail) b)
        simp only [List.nil_append, List.cons_append, splitOnLAux]
        rw [if_pos (by simp [hp])]
        congr 1
        have hdrop : (s :: stail).length - 1 = stail.length := by simp
        simp only [List.append_eq]
        rw [hdrop, List.drop_left stail b]
        apply splitOnLAux_irrel
        · simp only [List.cons_append, List.length_cons, List.length_append] at hlen
          omega
        · exact Nat.le_refl _
    | cons x a' =>
      have hparts : (sep.isPrefixOf (x :: (a' ++ sep.dropLast))
          || hasOcc sep (a' ++ sep.dropLast)) = false := h
      have hfirst : sep.isPrefixOf (x :: (a' ++ sep.dropLast)) = false :=
        (Bool.or_eq_false_iff.mp hparts).1
      have hrest : hasOcc sep (a' ++ sep.dropLast) = false :=
        (Bool.or_eq_false_iff.mp hparts).2
      have hp : sep.isPrefixOf (x :: (a' ++ (sep ++ b))) = false := by
        cases hpp : sep.isPrefixOf (x :: (a' ++ (sep ++ b)))
        · rfl
        · exfalso
          have hpre : sep <+: (x :: (a' ++ (sep ++ b))) := List.isPrefixOf_iff_prefix.mp hpp
          have hsplit : sep.dropLast ++ [sep.getLast hne] = sep :=
            List.dropLast_append_getLast hne
          have hrw : (x :: (a' ++ (sep ++ b)))
              = ((x :: (a' ++ sep.dropLast)) ++ (sep.getLast hne :: b)) := by
            conv_lhs => rw [← hsplit]
            simp [List.append_assoc]
          rw [hrw] at hpre
          have hlen2 : sep.length ≤ (x :: (a' ++ sep.dropLast)).length := by
            have hpos : 1 ≤ sep.length := List.length_pos.mpr hne
            simp [List.length_dropLast]
            omega
          have hpre2 : sep <+: (x :: (a' ++ sep.dropLast)) :=
            prefix_of_append_of_le hpre hlen2
          obtain ⟨t, ht⟩ := hpre2
          have hinf : sep <:+: (x :: (a' ++ sep.dropLast)) := ⟨[], t, by simpa using ht⟩
          have htrue := hasOcc_of_infix sep _ hinf
          have hfalse : hasOcc sep (x :: (a' ++ sep.dropLast)) = false := h
          exact Bool.noConfusion (hfalse.symm.trans htrue)
      have hlen' : (a' ++ (sep ++ b)).length ≤ g := by simpa using hlen
      have hih := ih a' b hlen' hrest
      simp only [List.cons_append, splitOnLAux]
      simp only [List.append_eq]
      rw [if_neg (by simp [hp]), hih]

theorem splitOnL_append (sep a b : List Char) (hne : sep ≠ [])
    (h : hasOcc sep (a ++ sep.dropLast) = false) :
    splitOnL sep (a ++ (sep ++ b)) = a :: splitOnL sep b :=
  splitOnL_append_aux sep hne (a ++ (sep ++ b)).length a b (Nat.le_refl _) h

theorem openGuardFor_ne_nil (network target : List Char) :
    openGuardFor network target ≠ [] := by
  intro h
  rw [openGuardFor] at h
  exact absurd (List.append_eq_nil.mp h).2 (by decide)

theorem closeGuardFor_ne_nil (network target : List Char) :
    closeGuardFor network target ≠ [] := by
  intro h
  rw [closeGuardFor] at h
  exact absurd (List.append_eq_nil.mp h).2 (by decide)

theorem trim_no_occ (file og cg : List Char) (h1 : hasOcc og file = false)
    (h2 : hasOcc cg file = false) :
    trim_host_from_guards file og cg = file := by
  unfold trim_host_from_guards
  rw [splitOnL_of_no_occ og file h1, splitOnL_of_no_occ cg file h2]
  simp

theorem trim_block (og cg P M S : List Char) (hog : og ≠ []) (hcg : cg ≠ [])
    (h1 : hasOcc og (P ++ og.dropLast) = false)
    (h2 : hasOcc cg ((P ++ og ++ M) ++ cg.dropLast) = false)
    (h3 : hasOcc cg S = false) :
    trim_host_from_guards (P ++ og ++ M ++ cg ++ S) og cg = P ++ S := by
  unfold trim_host_from_guards
  have hX : P ++ og ++ M ++ cg ++ S = P ++ (og ++ (M ++ (cg ++ S))) := by
    simp [List.append_assoc]
  rw [hX, splitOnL_append og P (M ++ (cg ++ S)) hog h1]
  have hY : P ++ (og ++ (M ++ (cg ++ S))) = (P ++ og ++ M) ++ (cg ++ S) := by
    simp [List.append_assoc]
  rw [hY, splitOnL_append cg (P ++ og ++ M) S hcg h2,
    splitOnL_of_no_occ cg S h3]
  simp

/-- C8 counterexample: a content containing the closing marker but not the
opening marker is not returned unchanged before the appended block: the text
after the closing marker is duplicated by the rewrite. -/
theorem c8_counterexample :
    update_host_file ("### close app net tgt\nY").data ["web".data]
        "net".data "tgt".data "2.2.2.2".data
      ≠ ("### close app net tgt\nY").data ++ openGuardFor "net".data "tgt".data
          ++ hostLines ["web".data] "2.2.2.2".data
          ++ closeGuardFor "net".data "tgt".data := by
  decide

/-- C8 (amended): for every content string in which neither the opening nor
the closing marker for the given (network, target) pair occurs, the rewrite
returns the original content unchanged followed by exactly the appended
block: opening marker line, one line per hostname formatted
`<hostIp><TAB><hostname>`, closing marker line. -/
theorem update_host_file_appends_when_no_markers (file : List Char)
    (lines : List (List Char)) (network target host : List Char)
    (h1 : hasOcc (openGuardFor network target) file = false)
    (h2 : hasOcc (closeGuardFor network target) file = false) :
    update_host_file file lines network target host
      = file ++ openGuardFor network target ++ hostLines lines host
          ++ closeGuardFor network target := by
  unfold update_host_file
  simp only []
  rw [trim_no_occ file _ _ h1 h2]

/-- Witness for the amended C8 at a concrete marker-free content. -/
theorem update_host_file_appends_when_no_markers_witness :
    update_host_file "1.1.1.1 x\n".data ["web".data, "api".data]
        "net".data "tgt".data "2.2.2.2".data
      = "1.1.1.1 x\n".data ++ openGuardFor "net".data "tgt".data
          ++ hostLines ["web".data, "api".data] "2.2.2.2".data
          ++ closeGuardFor "net".data "tgt".data :=
  update_host_file_appends_when_no_markers "1.1.1.1 x\n".data
    ["web".data, "api".data] "net".data "tgt".data "2.2.2.2".data
    (by decide) (by decide)

/-- C6 counterexample: idempotence fails for a content string that already
contains marker text: for content `close-marker ++ open-marker`, rewriting
twice appends a second copy of the block body. -/
theorem c6_counterexample :
    update_host_file
        (update_host_file
          (closeGuardFor "net".data "tgt".data ++ openGuardFor "net".data "tgt".data)
          ["web".data] "net".data "tgt".data "2.2.2.2".data)
        ["web".data] "net".data "tgt".data "2.2.2.2".data
      ≠ update_host_file
          (closeGuardFor "net".data "tgt".data ++ openGuardFor "net".data "tgt".data)
          ["web".data] "net".data "tgt".data "2.2.2.2".data := by
  decide

/-- C6 (amended): the rewrite is idempotent provided the guard marker text is
reserved: the opening marker must not occur in the once-trimmed content
(or spanning into the appended opening marker), and the closing marker must
not occur in the trimmed content, the appended opening marker, or the
appended body (or spanning into the appended closing marker). -/
theorem update_host_file_idempotent (file : List Char) (lines : List (List Char))
    (network target host : List Char)
    (h1 : hasOcc (openGuardFor network target)
        (trim_host_from_guards file (openGuardFor network target)
            (closeGuardFor network target)
          ++ (openGuardFor network target).dropLast) = false)
    (h2 : hasOcc (closeGuardFor network target)
        ((trim_host_from_guards file (openGuardFor network target)
            (closeGuardFor network target)
          ++ openGuardFor network target ++ hostLines lines host)
          ++ (closeGuardFor network target).dropLast) = false) :
    update_host_file (update_host_file file lines network target host)
        lines network target host
      = update_host_file file lines network target host := by
  unfold update_host_file
  simp only []
  have h3 : hasOcc (closeGuardFor network target) [] = false := by
    have hne := closeGuardFor_ne_nil network target
    cases hclose : closeGuardFor network target
    · exact absurd hclose hne
    · rfl
  have hb := trim_block (openGuardFor network target) (closeGuardFor network target)
    (trim_host_from_guards file (openGuardFor network target) (closeGuardFor network target))
    (hostLines lines host) []
    (openGuardFor_ne_nil network target) (closeGuardFor_ne_nil network target) h1 h2 h3
  simp only [List.append_nil] at hb
  rw [hb]

/-- Witness for the amended C6 at a concrete marker-free content. -/
theorem update_host_file_idempotent_witness :
    update_host_file
        (update_host_file "1.1.1.1 x\n".data ["web".data, "api".data]
          "net".data "tgt".data "2.2.2.2".data)
        ["web".data, "api".data] "net".data "tgt".data "2.2.2.2".data
      = update_host_file "1.1.1.1 x\n".data ["web".data, "api".data]
          "net".data "tgt".data "2.2.2.2".data :=
  update_host_file_idempotent "1.1.1.1 x\n".data ["web".data, "api".data]
    "net".data "tgt".data "2.2.2.2".data (by decide) (by decide)

/-- C7 counterexample: the isolation claim fails as stated for a
(network, target) pair whose marker text collides with itself: with
network = `"x\n### open app"` and target = `"x"`, the opening marker is the
square of the 15-character word `"### open app x\n"`; the prefix
`"### open app x\n"` contains neither full marker, yet it is destroyed by
the rewrite because the marker matches starting inside the prefix. -/
theorem c7_counterexample :
    hasOcc (openGuardFor "x\n### open app".data "x".data) "### open app x\n".data = false
    ∧ hasOcc (closeGuardFor "x\n### open app".data "x".data) "### open app x\n".data = false
    ∧ update_host_file
        ("### open app x\n".data ++ openGuardFor "x\n### open app".data "x".data
          ++ "9.9.9.9\tweb\n".data ++ closeGuardFor "x\n### open app".data "x".data ++ [])
        ["web".data] "x\n### open app".data "x".data "3.3.3.3".data
      ≠ "### open app x\n".data ++ []
          ++ openGuardFor "x\n### open app".data "x".data
          ++ hostLines ["web".data] "3.3.3.3".data
          ++ closeGuardFor "x\n### open app".data "x".data := by
  refine ⟨by decide, by decide, by decide⟩

/-- C7 (amended): rewriting a content of the form
prefix ++ open marker ++ block body ++ close marker ++ suffix preserves the
prefix and the suffix byte-for-byte and replaces only the marker-delimited
block, placing the new block at the end — provided the marker text is
reserved: the opening marker has no occurrence starting inside the prefix,
the closing marker has no occurrence starting inside prefix, opening marker
or old block body, and the closing marker does not occur in the suffix. -/
theorem update_host_file_isolation (P M S : List Char) (lines : List (List Char))
    (network target host : List Char)
    (h1 : hasOcc (openGuardFor network target)
        (P ++ (openGuardFor network target).dropLast) = false)
    (h2 : hasOcc (closeGuardFor network target)
        ((P ++ openGuardFor network target ++ M)
          ++ (closeGuardFor network target).dropLast) = false)
    (h3 : hasOcc (closeGuardFor network target) S = false) :
    update_host_file
        (P ++ openGuardFor network target ++ M ++ closeGuardFor network target ++ S)
        lines network target host
      = P ++ S ++ openGuardFor network target ++ hostLines lines host
          ++ closeGuardFor network target := by
  unfold update_host_file
  simp only []
  rw [trim_block (openGuardFor network target) (closeGuardFor network target) P M S
    (openGuardFor_ne_nil network target) (closeGuardFor_ne_nil network target) h1 h2 h3]

/-- Witness for the amended C7 at a concrete well-formed hosts file. -/
theorem update_host_file_isolation_witness :
    update_host_file
        ("1.1.1.1 x\n".data ++ openGuardFor "net".data "tgt".data
          ++ "9.9.9.9\tweb\n".data ++ closeGuardFor "net".data "tgt".data
          ++ "2.2.2.2 tail\n".data)
        ["web".data] "net".data "tgt".data "3.3.3.3".data
      = "1.1.1.1 x\n".data ++ "2.2.2.2 tail\n".data
          ++ openGuardFor "net".data "tgt".data
          ++ hostLines ["web".data] "3.3.3.3".data
          ++ closeGuardFor "net".data "tgt".data :=
  update_host_file_isolation "1.1.1.1 x\n".data "9.9.9.9\tweb\n".data
    "2.2.2.2 tail\n".data ["web".data] "net".data "tgt".data "3.3.3.3".data
    (by decide) (by decide) (by decide)

/-- C9: Scenario C of the spec.  Rewriting `"1.1.1.1 x\n"` with hostnames
`["web", "api"]`, network `"net"`, target `"tgt"` and ip `"2.2.2.2"` yields
exactly the original content followed by the managed block whose marker
lines carry the literal product tag `app`. -/
theorem scenario_c_rewrite :
    update_host_file "1.1.1.1 x\n".data ["web".data, "api".data]
        "net".data "tgt".data "2.2.2.2".data
      = ("1.1.1.1 x\n### open app net tgt\n2.2.2.2\tweb\n2.2.2.2\tapi\n"
          ++ "### close app net tgt\n").data := by
  decide

/-- C1 counterexample: with a docker collaborator whose hosts-patch requests
fail, the very first tick's dispatch error terminates the event loop:
running the loop for two ticks returns the patch error instead of
proceeding to the second tick. -/
theorem c1_counterexample :
    loop_once failingDocker 0 stack0 = Except.error "no name"
    ∧ event_loop_n failingDocker 2 0 stack0 = Except.error "no name" :=
  ⟨rfl, rfl⟩

/-- C1 (amended): a failing hosts-patch request aborts the remaining patch
requests of its tick (an error from a prefix of the event list is the result
for the whole list), and the error propagates out of the event loop: the
loop terminates with that error instead of proceeding to the next tick. -/
theorem patch_failure_fatal {σ ε : Type} (d : DockerOps σ ε) (cfg : Config) :
    (∀ (s : σ) (tip : Option String) (evs1 evs2 : List StackEvents) (e : ε),
      dispatchEvents d cfg s tip evs1 = Except.error e →
      dispatchEvents d cfg s tip (evs1 ++ evs2) = Except.error e)
    ∧ (∀ (n : Nat) (s : σ) (stack : CurrentStack) (e : ε),
      loop_once d s stack = Except.error e →
      event_loop_n d (n + 1) s stack = Except.error e) := by
  constructor
  · intro s tip evs1
    induction evs1 generalizing s tip with
    | nil =>
      intro evs2 e h
      exact absurd h (by simp [dispatchEvents])
    | cons ev rest ih =>
      intro evs2 e h
      rw [List.cons_append]
      simp only [dispatchEvents] at h ⊢
      cases hh : handleEvent d cfg s tip ev with
      | error e' =>
        rw [hh] at h
        exact h
      | ok st =>
        rw [hh] at h
        exact ih st.1 st.2 evs2 e h
  · intro n s stack e h
    simp only [event_loop_n]
    rw [h]

/-- Witness for the amended C1: the failing docker collaborator errors on a
Target fan-out, the error is the result for the extended event list, and
the three-tick loop returns the same error. -/
theorem patch_failure_fatal_witness :
    dispatchEvents failingDocker cfgA 1 none
        ([StackEvents.Target (deriveContainer cfgA "tttt" rawT)
            [deriveContainer cfgA "bbbb" rawB] "10.0.0.9"]
          ++ [StackEvents.Gone contA])
      = Except.error "no name"
    ∧ event_loop_n failingDocker 3 0 stack0 = Except.error "no name" :=
  ⟨(patch_failure_fatal failingDocker cfgA).1 1 none
      [StackEvents.Target (deriveContainer cfgA "tttt" rawT)
        [deriveContainer cfgA "bbbb" rawB] "10.0.0.9"]
      [StackEvents.Gone contA] "no name" rfl,
   (patch_failure_fatal failingDocker cfgA).2 2 0 stack0 "no name" rfl⟩

/-! ### Byte-slice lemmas for `Container::hash` -/

theorem utf8Len_nil : utf8Len [] = 0 := rfl

theorem utf8Len_cons (c : Char) (l : List Char) :
    utf8Len (c :: l) = c.utf8Size + utf8Len l := by
  simp [utf8Len]

theorem utf8Len_le_of_prefix {pre l : List Char} (h : pre <+: l) :
    utf8Len pre ≤ utf8Len l := by
  obtain ⟨t, ht⟩ := h
  rw [← ht]
  unfold utf8Len
  rw [List.map_append, List.sum_append]
  exact Nat.le_add_right _ _

theorem sliceBytes_isSome_iff : ∀ (l : List Char) (n : Nat),
    (sliceBytes l n).isSome = true ↔ ∃ pre, pre <+: l ∧ utf8Len pre = n := by
  intro l
  induction l with
  | nil =>
    intro n
    cases n with
    | zero =>
      simp only [sliceBytes, Option.isSome_some, true_iff]
      exact ⟨[], List.nil_prefix, rfl⟩
    | succ m =>
      simp only [sliceBytes, Option.isSome_none, Bool.false_eq_true, false_iff]
      rintro ⟨pre, hpre, hlen⟩
      rw [List.prefix_nil.mp hpre] at hlen
      exact Nat.noConfusion hlen
  | cons c cs ih =>
    intro n
    cases n with
    | zero =>
      simp only [sliceBytes, Option.isSome_some, true_iff]
      exact ⟨[], List.nil_prefix, rfl⟩
    | succ m =>
      by_cases hsz : c.utf8Size ≤ m + 1
      · simp only [sliceBytes]
        rw [if_pos hsz]
        have hmap : ((sliceBytes cs (m + 1 - c.utf8Size)).map (fun r => c :: r)).isSome
            = (sliceBytes cs (m + 1 - c.utf8Size)).isSome := by
          cases sliceBytes cs (m + 1 - c.utf8Size) <;> rfl
        rw [hmap, ih (m + 1 - c.utf8Size)]
        constructor
        · rintro ⟨pre, hpre, hlen⟩
          refine ⟨c :: pre, List.cons_prefix_cons.mpr ⟨rfl, hpre⟩, ?hl⟩
          rw [utf8Len_cons]
          omega
        · rintro ⟨pre, hpre, hlen⟩
          cases pre with
          | nil =>
            rw [utf8Len_nil] at hlen
            exact Nat.noConfusion hlen
          | cons c' pre' =>
            obtain ⟨hc, hpre'⟩ := List.cons_prefix_cons.mp hpre
            rw [utf8Len_cons, hc] at hlen
            exact ⟨pre', hpre', by omega⟩
      · simp only [sliceBytes]
        rw [if_neg hsz]
        simp only [Option.isSome_none, Bool.false_eq_true, false_iff]
        rintro ⟨pre, hpre, hlen⟩
        cases pre with
        | nil =>
          rw [utf8Len_nil] at hlen
          exact Nat.noConfusion hlen
        | cons c' pre' =>
          obtain ⟨hc, _⟩ := List.cons_prefix_cons.mp hpre
          rw [utf8Len_cons, hc] at hlen
          omega

/-- C10: the per-event log line formats the container via `Container::hash`,
which slices the first 16 bytes of the container id.  Formatting is total
exactly when the id has a prefix of UTF-8 byte length exactly 16 (at least
16 bytes with a character boundary at byte 16); and for any container whose
id is shorter than 16 bytes, the log line of every event about it panics
(is `none`). -/
theorem container_hash_slice_partiality :
    (∀ c : Container, (displayContainer c).isSome = true
        ↔ ∃ pre, pre <+: c.id.data ∧ utf8Len pre = 16)
    ∧ (∀ (c : Container) (ev : StackEvents), utf8Len c.id.data < 16 →
        evPrimary ev = c → eventLogLine ev = none) := by
  constructor
  · intro c
    have hs : (displayContainer c).isSome = (sliceBytes c.id.data 16).isSome := by
      unfold displayContainer Container.hash
      cases sliceBytes c.id.data 16 <;> rfl
    rw [hs]
    exact sliceBytes_isSome_iff c.id.data 16
  · intro c ev hshort hprim
    have hnone : Container.hash c = none := by
      cases hh : Container.hash c with
      | none => rfl
      | some h =>
        exfalso
        have hsome : (sliceBytes c.id.data 16).isSome = true := by
          unfold Container.hash at hh
          rw [hh]
          rfl
        rw [sliceBytes_isSome_iff] at hsome
        obtain ⟨pre, hpre, hlen⟩ := hsome
        have hle := utf8Len_le_of_prefix hpre
        omega
    have hdc : displayContainer c = none := by
      unfold displayContainer
      rw [hnone]
      rfl
    cases ev with
    | New c₀ =>
      have : c₀ = c := hprim
      rw [this]
      simp [eventLogLine, hdc]
    | Target c₀ known ip =>
      have : c₀ = c := hprim
      rw [this]
      simp [eventLogLine, hdc]
    | Gone c₀ =>
      have : c₀ = c := hprim
      rw [this]
      simp [eventLogLine, hdc]
    | NoFlag c₀ =>
      have : c₀ = c := hprim
      rw [this]
      simp [eventLogLine, hdc]
    | OutsideNetwork c₀ =>
      have : c₀ = c := hprim
      rw [this]
      simp [eventLogLine, hdc]

/-- Witness for C10: a 5-byte id makes the Gone log line panic, and a
16-plus-byte ASCII id formats successfully. -/
theorem container_hash_slice_partiality_witness :
    (utf8Len shortC.id.data < 16 ∧ eventLogLine (StackEvents.Gone shortC) = none)
    ∧ (displayContainer okC).isSome = true :=
  ⟨⟨by decide,
    container_hash_slice_partiality.2 shortC (StackEvents.Gone shortC) (by decide) rfl⟩,
   by decide⟩
